import Mathlib

/-!
Verification of the todoissh interactive session controller and task store
against its specification.  The Go source is embedded shallowly: the task
store (`pkg/todo`) becomes pure functions over an association-list model of
the Go map, and the terminal UI loop (`pkg/ui`, final revision with
registration support) becomes a recursive function over the finite list of
input bytes.  `time.Now()` is modelled by an explicit clock argument; disk
persistence and rendering output are out of scope (they do not affect any
of the state or command-trace properties proved here).
-/

namespace Todoissh

/-- a task record, mirroring `Todo` in pkg/todo (`id`, `text`, `completed`,
`created_at`, `updated_at`).  Timestamps are abstract instants (`Nat`)
supplied by the caller in place of `time.Now()`. -/
structure Todo where
  id : Nat
  text : List Char
  completed : Bool
  createdAt : Nat
  updatedAt : Nat
deriving Repr, DecidableEq, Inhabited

/-- per-user todo collection, mirroring `UserTodos`: the Go map
`map[int]*Todo` is represented as an association list from key to task,
plus the `NextID` counter.  Go map iteration order is modelled separately
(see `IterOrder`). -/
structure UserTodos where
  todos : List (Nat × Todo)
  nextID : Nat
deriving Repr, DecidableEq, Inhabited

/-- lookup `m[id]` in the association-list model of the Go map. -/
def lookupTodo : List (Nat × Todo) → Nat → Option Todo
  | [], _ => none
  | p :: rest, id => if p.1 == id then some p.2 else lookupTodo rest id

/-- map removal `delete(m, id)`. -/
def removeTodo (m : List (Nat × Todo)) (id : Nat) : List (Nat × Todo) :=
  m.filter (fun p => p.1 != id)

/-- map assignment `m[id] = t`: replace the binding if present, insert
otherwise. -/
def setTodo : List (Nat × Todo) → Nat → Todo → List (Nat × Todo)
  | [], id, t => [(id, t)]
  | p :: rest, id, t => if p.1 == id then (id, t) :: rest else p :: setTodo rest id t

/-- the task store, mirroring `todo.Store`: a map from username to that
user's `UserTodos`.  Go's `getUserTodos` auto-creates an empty collection
with `NextID = 1` on first access, so the store is modelled as a total
function whose default value is that empty collection (`saveTodos`/disk
loading are I/O and out of scope). -/
abbrev Store := String → UserTodos

/-- the empty per-user collection created by `getUserTodos`. -/
def emptyUserTodos : UserTodos := ⟨[], 1⟩

/-- replace one user's collection in the store. -/
def Store.set (s : Store) (u : String) (ut : UserTodos) : Store :=
  fun v => if v = u then ut else s v

/-- `Store.Add`: allocate `NextID`, insert the new task, bump the counter. -/
def Store.add (s : Store) (u : String) (text : List Char) (now : Nat) :
    Todo × Store :=
  let ut := s u
  let todo : Todo := ⟨ut.nextID, text, false, now, now⟩
  (todo, s.set u ⟨setTodo ut.todos todo.id todo, ut.nextID + 1⟩)

/-- `Store.Update`: `none` models the "todo with ID %d not found" error;
otherwise the task's `Text` and `UpdatedAt` are replaced. -/
def Store.update (s : Store) (u : String) (id : Nat) (text : List Char)
    (now : Nat) : Option (Todo × Store) :=
  let ut := s u
  match lookupTodo ut.todos id with
  | none => none
  | some todo =>
    let todo2 := { todo with text := text, updatedAt := now }
    some (todo2, s.set u { ut with todos := setTodo ut.todos id todo2 })

/-- `Store.Delete`: `none` models the not-found error. -/
def Store.delete (s : Store) (u : String) (id : Nat) : Option Store :=
  let ut := s u
  match lookupTodo ut.todos id with
  | none => none
  | some _ => some (s.set u { ut with todos := removeTodo ut.todos id })

/-- `Store.ToggleComplete`: flip `Completed`, refresh `UpdatedAt`. -/
def Store.toggleComplete (s : Store) (u : String) (id : Nat) (now : Nat) :
    Option (Todo × Store) :=
  let ut := s u
  match lookupTodo ut.todos id with
  | none => none
  | some todo =>
    let todo2 := { todo with completed := !todo.completed, updatedAt := now }
    some (todo2, s.set u { ut with todos := setTodo ut.todos id todo2 })

/-- `Store.List`: Go ranges over the map and appends each value; the
iteration order of a Go map is unspecified, so it is passed explicitly as
the list of keys in visit order. -/
def Store.listWithOrder (s : Store) (u : String) (order : List Nat) :
    List Todo :=
  order.filterMap (fun id => lookupTodo (s u).todos id)

/-- admissible Go map iteration orders: `range` visits every key of the map
exactly once, in an arbitrary order. -/
def IterOrder (m : List (Nat × Todo)) (order : List Nat) : Prop :=
  order.Perm (m.map Prod.fst)

/-- well-formedness of the map representation, maintained by the store:
every binding keys a task by its own id, and keys are distinct (Go map
keys are unique). -/
def WFMap (m : List (Nat × Todo)) : Prop :=
  (∀ p ∈ m, p.2.id = p.1) ∧ (m.map Prod.fst).Nodup

/-- concrete two-task store used by witness statements. -/
def exStore2 : Store :=
  Store.set (fun _ => emptyUserTodos) "alice"
    ⟨[(1, ⟨1, [Char.ofNat 97], false, 0, 0⟩),
      (2, ⟨2, [Char.ofNat 98], true, 0, 0⟩)], 3⟩

/-- ordering used by the UI's `sort.Slice` comparator in `refreshDisplay`:
tasks compare by `ID`. -/
def todoLE (a b : Todo) : Prop := a.id ≤ b.id

instance : DecidableRel todoLE := fun a b => Nat.decLe a.id b.id

instance : IsTotal Todo todoLE := ⟨fun a b => Nat.le_total a.id b.id⟩

instance : IsTrans Todo todoLE := ⟨fun _ _ _ => Nat.le_trans⟩

/-- the sort the UI applies to the result of `Store.List` (`sort.Slice`
with the `ID <` comparator).  On the duplicate-free ids produced by the
store every correct sort yields the same, unique, id-ascending result, so
insertion sort stands in for Go's sort. -/
def sortByID (l : List Todo) : List Todo := List.insertionSort todoLE l

/-- UI modes of the session state machine (`ModeNormal` is the spec's
`Browsing`, `ModeInput` its `Editing`, `ModeRegister` its `Registering`). -/
inductive UIMode where
  | normal
  | input
  | register
deriving DecidableEq, Repr

/-- per-connection UI state, mirroring the fields of `ui.TerminalUI` that
carry session state (the channel handle, mutex and store pointers are
I/O plumbing; the two stores are threaded separately through the loop). -/
structure TerminalUI where
  width : Nat
  height : Nat
  todos : List Todo
  selected : Nat
  mode : UIMode
  inputText : List Char
  inputLabel : String
  cursorPos : Nat
  username : String
  isRegistering : Bool
  registerStep : Nat
  password : List Char
deriving DecidableEq, Repr

/-- initial UI state built by `NewTerminalUI`. -/
def newTerminalUI (username : String) (isNewUser : Bool) : TerminalUI :=
  { width := 80, height := 24, todos := [], selected := 0,
    mode := if isNewUser then UIMode.register else UIMode.normal,
    inputText := [], inputLabel := "New todo: ", cursorPos := 0,
    username := username, isRegistering := isNewUser, registerStep := 0,
    password := [] }

/-- abstract store commands issued by the session state machine (the
spec's `AddTask`/`UpdateTask`/`ToggleTask`/`DeleteTask`/
`RegisterCredential`); the loop records one per store call it makes. -/
inductive Cmd where
  | addTask : String → List Char → Cmd
  | updateTask : String → Nat → List Char → Cmd
  | toggleTask : String → Nat → Cmd
  | deleteTask : String → Nat → Cmd
  | registerCred : String → List Char → Cmd
deriving DecidableEq, Repr

/-- ways `handleInput` returns: clean end of stream, Ctrl+C, or the fatal
registration-failure path. -/
inductive Outcome where
  | eof
  | interrupt
  | registrationFailed
deriving DecidableEq, Repr

/-- the credential store (pkg/user): username → registered password.
Hashing (bcrypt) is injective-by-assumption I/O and is abstracted away;
the model stores the password itself. -/
abbrev UserStore := String → Option (List Char)

/-- `user.Store.Register`: create or overwrite the user's record. -/
def UserStore.register (us : UserStore) (u : String) (pw : List Char) :
    UserStore :=
  fun v => if v = u then some pw else us v

/-- whitespace trimmed by Go's `strings.TrimSpace` (`unicode.IsSpace`,
restricted to the Latin-1 range that can occur in these byte strings). -/
def isGoSpace (c : Char) : Bool :=
  c == Char.ofNat 32 || c == Char.ofNat 9 || c == Char.ofNat 10 ||
  c == Char.ofNat 11 || c == Char.ofNat 12 || c == Char.ofNat 13 ||
  c == Char.ofNat 133 || c == Char.ofNat 160

/-- `strings.TrimSpace`: drop whitespace from both ends. -/
def trimSpace (l : List Char) : List Char :=
  ((l.dropWhile isGoSpace).reverse.dropWhile isGoSpace).reverse

/-- state effect of `refreshDisplay`: outside registration mode it reloads
the snapshot from the store and sorts it by id (`sort.Slice`); in
`ModeRegister` it returns before touching the snapshot.  The snapshot is
written canonically as the sort of the map's tasks: by
`listWithOrder_perm` the sorted result does not depend on which
admissible iteration order `Store.List` used.  Rendering bytes are not
modelled. -/
def refreshTodos (t : TerminalUI) (s : Store) : TerminalUI :=
  if t.mode = UIMode.register then t
  else { t with todos := sortByID ((s t.username).todos.map Prod.snd) }

/-- result of handling the leading input byte: updated state, commands
issued, how many further bytes were consumed from the stream (`extra`),
whether `handleInput` returns (`stop`), and whether control falls through
to `t.refreshDisplay()` (`continue` statements inside the escape-sequence
handling skip the refresh). -/
structure StepOut where
  ui : TerminalUI
  store : Store
  users : UserStore
  cmds : List Cmd
  extra : Nat
  stop : Option Outcome
  refresh : Bool

/-- `handleRegistration` (registration `Enter` handling).  The error and
success screens block on a dismissal keypress (`t.channel.Read` of one
byte whose value and error are ignored), consuming one byte from the
stream when available.  Returns whether the session must end (the Go
function's boolean), the new state, credential store, commands and the
number of dismissal bytes consumed.  `registerOk` is the outcome of the
external `userStore.Register` I/O (bcrypt/disk); on failure the store is
unchanged and the session ends. -/
def handleRegistration (t : TerminalUI) (us : UserStore) (rest : List Nat)
    (registerOk : Bool) :
    Bool × TerminalUI × UserStore × List Cmd × Nat :=
  if t.registerStep = 0 then
    if t.inputText.length < 6 then
      (false, { t with inputText := [] }, us, [], min 1 rest.length)
    else
      (false,
        { t with
            password := t.inputText, inputText := [], registerStep := 1 },
        us, [], 0)
  else if t.registerStep = 1 then
    if t.inputText ≠ t.password then
      (false, { t with inputText := [], registerStep := 0 }, us, [],
        min 1 rest.length)
    else if registerOk then
      (false, { t with mode := UIMode.normal, isRegistering := false },
        us.register t.username t.password,
        [Cmd.registerCred t.username t.password], min 1 rest.length)
    else
      (true, t, us, [Cmd.registerCred t.username t.password],
        min 1 rest.length)
  else
    (false, t, us, [], 0)

/-- registration-mode dispatch on one input byte (the `ModeRegister`
switch at the top of `handleInput`); every non-exiting branch ends in an
explicit `t.refreshDisplay()` before `continue`. -/
def stepRegister (t : TerminalUI) (s : Store) (us : UserStore) (b : Nat)
    (rest : List Nat) (registerOk : Bool) : StepOut :=
  if b = 3 then
    ⟨t, s, us, [], 0, some Outcome.interrupt, false⟩
  else if b = 13 then
    match handleRegistration t us rest registerOk with
    | (true, t2, us2, cmds, k) =>
      ⟨t2, s, us2, cmds, k, some Outcome.registrationFailed, false⟩
    | (false, t2, us2, cmds, k) =>
      ⟨t2, s, us2, cmds, k, none, true⟩
  else if b = 127 then
    ⟨(if t.inputText.length > 0
       then { t with inputText := t.inputText.dropLast } else t),
      s, us, [], 0, none, true⟩
  else
    ⟨(if 32 ≤ b ∧ b ≤ 126
       then { t with inputText := t.inputText ++ [Char.ofNat b] } else t),
      s, us, [], 0, none, true⟩

/-- main-mode dispatch on one input byte: the `switch buf[0]` of
`handleInput` for `ModeNormal`/`ModeInput`.  The escape-sequence branch
reads up to two further bytes (`seq`) and, for the delete prefix, one
more; a read at end of stream errors (`continue`), and a one-byte short
read leaves `seq[1]` at its zero initial value.  `now` stands for
`time.Now()` at this iteration. -/
def stepMain (t : TerminalUI) (s : Store) (us : UserStore) (b : Nat)
    (rest : List Nat) (now : Nat) : StepOut :=
  if b = 3 then
    ⟨t, s, us, [], 0, some Outcome.interrupt, false⟩
  else if b = 9 then
    if t.mode = UIMode.normal then
      ⟨{ t with
          mode := UIMode.input, inputLabel := "New todo: ",
          inputText := [], cursorPos := 0 }, s, us, [], 0, none, true⟩
    else
      ⟨{ t with mode := UIMode.normal, inputText := [], cursorPos := 0 },
        s, us, [], 0, none, true⟩
  else if b = 13 then
    if t.mode = UIMode.input then
      let text := trimSpace t.inputText
      if text ≠ [] then
        if t.inputLabel = "New todo: " then
          ⟨{ t with mode := UIMode.normal, inputText := [], cursorPos := 0 },
            (s.add t.username text now).2, us,
            [Cmd.addTask t.username text], 0, none, true⟩
        else
          let id := (t.todos.getD t.selected default).id
          let s2 := match s.update t.username id text now with
                    | some r => r.2
                    | none => s
          ⟨{ t with mode := UIMode.normal, inputText := [], cursorPos := 0 },
            s2, us, [Cmd.updateTask t.username id text], 0, none, true⟩
      else
        ⟨{ t with mode := UIMode.normal, inputText := [], cursorPos := 0 },
          s, us, [], 0, none, true⟩
    else if t.todos.length > 0 then
      let sel := t.todos.getD t.selected default
      ⟨{ t with
          mode := UIMode.input, inputText := sel.text,
          inputLabel := "Edit todo: ", cursorPos := sel.text.length },
        s, us, [], 0, none, true⟩
    else
      ⟨t, s, us, [], 0, none, true⟩
  else if b = 127 then
    if t.mode = UIMode.input ∧ t.inputText.length > 0 ∧ t.cursorPos > 0 then
      ⟨{ t with
          inputText := t.inputText.take (t.cursorPos - 1) ++
            t.inputText.drop t.cursorPos,
          cursorPos := t.cursorPos - 1 }, s, us, [], 0, none, true⟩
    else
      ⟨t, s, us, [], 0, none, true⟩
  else if b = 32 then
    if t.mode = UIMode.normal ∧ t.todos.length > 0 then
      let id := (t.todos.getD t.selected default).id
      let s2 := match s.toggleComplete t.username id now with
                | some r => r.2
                | none => s
      ⟨t, s2, us, [Cmd.toggleTask t.username id], 0, none, true⟩
    else if t.mode = UIMode.input then
      ⟨{ t with
          inputText := t.inputText.take t.cursorPos ++ [Char.ofNat 32] ++
            t.inputText.drop t.cursorPos,
          cursorPos := t.cursorPos + 1 }, s, us, [], 0, none, true⟩
    else
      ⟨t, s, us, [], 0, none, true⟩
  else if b = 27 then
    match rest with
    | [] => ⟨t, s, us, [], 0, none, false⟩
    | [x] =>
      if x = 91 then ⟨t, s, us, [], 1, none, true⟩
      else ⟨t, s, us, [], 1, none, false⟩
    | x :: y :: rest2 =>
      if x ≠ 91 then ⟨t, s, us, [], 2, none, false⟩
      else if y = 65 then
        ⟨(if t.mode = UIMode.normal ∧ t.selected > 0
           then { t with selected := t.selected - 1 } else t),
          s, us, [], 2, none, true⟩
      else if y = 66 then
        ⟨(if t.mode = UIMode.normal ∧ t.selected < t.todos.length - 1
           then { t with selected := t.selected + 1 } else t),
          s, us, [], 2, none, true⟩
      else if y = 67 then
        ⟨(if t.mode = UIMode.input ∧ t.cursorPos < t.inputText.length
           then { t with cursorPos := t.cursorPos + 1 } else t),
          s, us, [], 2, none, true⟩
      else if y = 68 then
        ⟨(if t.mode = UIMode.input ∧ t.cursorPos > 0
           then { t with cursorPos := t.cursorPos - 1 } else t),
          s, us, [], 2, none, true⟩
      else if y = 51 then
        match rest2 with
        | [] => ⟨t, s, us, [], 2, none, false⟩
        | c :: _ =>
          if c ≠ 126 then ⟨t, s, us, [], 3, none, false⟩
          else if t.mode = UIMode.normal ∧ t.todos.length > 0 then
            let id := (t.todos.getD t.selected default).id
            let s2 := match s.delete t.username id with
                      | some r => r
                      | none => s
            let t2 := if t.selected ≥ t.todos.length - 1
                      then { t with selected := t.todos.length - 2 }
                      else t
            ⟨t2, s2, us, [Cmd.deleteTask t.username id], 3, none, true⟩
          else if t.mode = UIMode.input ∧ t.cursorPos < t.inputText.length
          then
            ⟨{ t with
                inputText := t.inputText.take t.cursorPos ++
                  t.inputText.drop (t.cursorPos + 1) },
              s, us, [], 3, none, true⟩
          else
            ⟨t, s, us, [], 3, none, true⟩
      else
        ⟨t, s, us, [], 2, none, true⟩
  else
    if t.mode = UIMode.input ∧ 32 ≤ b ∧ b ≤ 126 then
      ⟨{ t with
          inputText := t.inputText.take t.cursorPos ++ [Char.ofNat b] ++
            t.inputText.drop t.cursorPos,
          cursorPos := t.cursorPos + 1 }, s, us, [], 0, none, true⟩
    else
      ⟨t, s, us, [], 0, none, true⟩

/-- final result of a run of `handleInput` over a finite input stream. -/
structure RunResult where
  ui : TerminalUI
  store : Store
  users : UserStore
  cmds : List Cmd
  outcome : Outcome

/-- `handleInput`: the session's read loop.  Reads one byte, dispatches on
the current mode, applies the state effect of `t.refreshDisplay()` when
control reaches it, and continues with the unconsumed remainder of the
stream.  End of stream is the transport's `io.EOF` (clean goodbye,
`nil` return).  `clock` supplies `time.Now()` and advances each
iteration. -/
def handleInput (t : TerminalUI) (s : Store) (us : UserStore)
    (input : List Nat) (clock : Nat) (registerOk : Bool) : RunResult :=
  match input with
  | [] => ⟨t, s, us, [], Outcome.eof⟩
  | b :: rest =>
    let out := if t.mode = UIMode.register
               then stepRegister t s us b rest registerOk
               else stepMain t s us b rest clock
    match out.stop with
    | some oc => ⟨out.ui, out.store, out.users, out.cmds, oc⟩
    | none =>
      let t2 := if out.refresh then refreshTodos out.ui out.store else out.ui
      let r := handleInput t2 out.store out.users (rest.drop out.extra)
        (clock + 1) registerOk
      ⟨r.ui, r.store, r.users, out.cmds ++ r.cmds, r.outcome⟩
termination_by input.length
decreasing_by
  simp only [List.length_cons, List.length_drop]
  omega

/-- key events available in Browsing mode for the navigation invariant:
arrow up, arrow down and the Delete key. -/
inductive BrowseKey where
  | up
  | down
  | delete
deriving DecidableEq, Repr

/-- byte encoding of the Browsing-mode keys as produced by a terminal. -/
def encodeBrowseKey : BrowseKey → List Nat
  | BrowseKey.up => [27, 91, 65]
  | BrowseKey.down => [27, 91, 66]
  | BrowseKey.delete => [27, 91, 51, 126]

/-- byte stream encoding a sequence of Browsing-mode key events. -/
def encodeBrowse (ks : List BrowseKey) : List Nat :=
  (ks.map encodeBrowseKey).flatten

/-- key events available in Editing mode for the cursor invariant. -/
inductive EditKey where
  | printable : Nat → EditKey
  | backspace
  | delete
  | left
  | right
deriving DecidableEq, Repr

/-- byte encoding of the Editing-mode keys. -/
def encodeEditKey : EditKey → List Nat
  | EditKey.printable b => [b]
  | EditKey.backspace => [127]
  | EditKey.delete => [27, 91, 51, 126]
  | EditKey.left => [27, 91, 68]
  | EditKey.right => [27, 91, 67]

/-- byte stream encoding a sequence of Editing-mode key events. -/
def encodeEdit (ks : List EditKey) : List Nat :=
  (ks.map encodeEditKey).flatten

/-- a `Printable` event carries a printable ASCII byte (the decoder's
`0x20`–`0x7E` class); the other events have fixed encodings. -/
def ValidEditKey : EditKey → Prop
  | EditKey.printable b => 32 ≤ b ∧ b ≤ 126
  | _ => True

/-- invariant of a Browsing-mode session: the snapshot is the sorted task
list of a well-formed store and the selection is in range (`≤ len - 1`
over `Nat` subsumes "0 when empty"). -/
def BrowseInv (t : TerminalUI) (s : Store) : Prop :=
  t.mode = UIMode.normal ∧
  WFMap (s t.username).todos ∧
  t.todos = sortByID ((s t.username).todos.map Prod.snd) ∧
  t.selected ≤ t.todos.length - 1

/-- invariant of an Editing-mode session: the cursor stays within the
edit buffer. -/
def EditInv (t : TerminalUI) : Prop :=
  t.mode = UIMode.input ∧ t.cursorPos ≤ t.inputText.length

/-- events observable on the SSH channel from `HandleChannel`: rendered
bytes and `exit-status` requests. -/
inductive ChanEvent where
  | write : String → ChanEvent
  | sendExit : Nat → ChanEvent
deriving DecidableEq, Repr

/-- the exit-status codes sent on the channel, in order. -/
def exitCodesOf (evs : List ChanEvent) : List Nat :=
  evs.filterMap (fun e =>
    match e with
    | ChanEvent.sendExit n => some n
    | _ => none)

/-- teardown sequence of `HandleChannel`'s deferred function: show cursor,
re-enable wrapping, leave the alternate screen, farewell line. -/
def teardownEvents : List ChanEvent :=
  [ChanEvent.write "\x1b[?25h", ChanEvent.write "\x1b[?7h",
   ChanEvent.write "\x1b[?1049l", ChanEvent.write "Goodbye!\r\n"]

/-- channel-event trace of `HandleChannel`'s shell path: the init writes
(alternate screen, wrap off), the session's rendered output
(`sessionWrites`, an abstraction of `refreshDisplay`/`handleInput` output,
which never sends requests), then — only when `handleInput` returned a
non-EOF error — an `exit-status 1` request, and finally the deferred
teardown followed by the unconditional `exit-status 0` request. -/
def handleChannelShell (sessionWrites : List String) (inputErr : Bool) :
    List ChanEvent :=
  [ChanEvent.write "\x1b[?1049h", ChanEvent.write "\x1b[?7l"] ++
  sessionWrites.map ChanEvent.write ++
  (if inputErr then [ChanEvent.sendExit 1] else []) ++
  teardownEvents ++
  [ChanEvent.sendExit 0]

/-- concrete three-task store used by counterexamples and witnesses. -/
def exStore3 : Store :=
  Store.set (fun _ => emptyUserTodos) "alice"
    ⟨[(1, ⟨1, [Char.ofNat 97], false, 0, 0⟩),
      (2, ⟨2, [Char.ofNat 98], false, 0, 0⟩),
      (3, ⟨3, [Char.ofNat 99], false, 0, 0⟩)], 4⟩

/-- Browsing-mode UI whose snapshot matches `exStore3`, with the last of
the three tasks selected. -/
def exUI3 : TerminalUI :=
  { newTerminalUI "alice" false with
      todos := [⟨1, [Char.ofNat 97], false, 0, 0⟩,
                ⟨2, [Char.ofNat 98], false, 0, 0⟩,
                ⟨3, [Char.ofNat 99], false, 0, 0⟩],
      selected := 2 }

/-- Editing-mode UI (new-task target) with buffer "x". -/
def exUIEdit : TerminalUI :=
  { newTerminalUI "alice" false with
      mode := UIMode.input,
      inputText := [Char.ofNat 120],
      cursorPos := 1 }

lemma Store.set_self (s : Store) (u : String) (ut : UserTodos) :
    s.set u ut u = ut := by
  simp [Store.set]

lemma Store.set_ne (s : Store) (u v : String) (ut : UserTodos)
    (h : v ≠ u) : s.set u ut v = s v := by
  simp [Store.set, h]

lemma removeTodo_cons (p : Nat × Todo) (rest : List (Nat × Todo)) (id : Nat) :
    removeTodo (p :: rest) id =
      if p.1 = id then removeTodo rest id else p :: removeTodo rest id := by
  by_cases hp : p.1 = id <;> simp [removeTodo, hp]

lemma lookupTodo_setTodo_self (m : List (Nat × Todo)) (id : Nat) (t : Todo) :
    lookupTodo (setTodo m id t) id = some t := by
  induction m with
  | nil => simp [setTodo, lookupTodo]
  | cons p rest ih =>
    by_cases h : p.1 = id
    · simp [setTodo, lookupTodo, h]
    · simp [setTodo, lookupTodo, h, ih]

lemma lookupTodo_setTodo_ne (m : List (Nat × Todo)) (id id' : Nat) (t : Todo)
    (h : id' ≠ id) : lookupTodo (setTodo m id t) id' = lookupTodo m id' := by
  have h2 : ¬ (id = id') := fun hh => h hh.symm
  induction m with
  | nil => simp [setTodo, lookupTodo, h2]
  | cons p rest ih =>
    by_cases hp : p.1 = id
    · have h3 : ¬ (p.1 = id') := by rw [hp]; exact h2
      simp [setTodo, lookupTodo, hp, h2, h3]
    · by_cases hp' : p.1 = id'
      · simp [setTodo, lookupTodo, hp, hp', h2, h]
      · simp [setTodo, lookupTodo, hp, hp', ih, h2]

lemma lookupTodo_removeTodo_ne (m : List (Nat × Todo)) (id id' : Nat)
    (h : id' ≠ id) :
    lookupTodo (removeTodo m id) id' = lookupTodo m id' := by
  have h2 : ¬ (id = id') := fun hh => h hh.symm
  induction m with
  | nil => simp [removeTodo]
  | cons p rest ih =>
    rw [removeTodo_cons]
    by_cases hp : p.1 = id
    · have h3 : ¬ (p.1 = id') := by
        rw [hp]; exact h2
      simp [lookupTodo, hp, h3, ih, h2]
    · by_cases hp' : p.1 = id'
      · simp [lookupTodo, hp, hp', h2, h]
      · simp [lookupTodo, hp, hp', ih, h2]

lemma lookupTodo_isSome_of_mem (m : List (Nat × Todo)) (id : Nat)
    (h : id ∈ m.map Prod.fst) : ∃ t, lookupTodo m id = some t := by
  induction m with
  | nil => simp at h
  | cons p rest ih =>
    by_cases hp : p.1 = id
    · exact ⟨p.2, by simp [lookupTodo, hp]⟩
    · have hmem : id ∈ rest.map Prod.fst := by
        simp at h
        rcases h with h | h
        · exact absurd h.symm hp
        · simpa using h
      rcases ih hmem with ⟨t, ht⟩
      exact ⟨t, by simp [lookupTodo, hp, ht]⟩

lemma removeTodo_eq_self (m : List (Nat × Todo)) (id : Nat)
    (h : id ∉ m.map Prod.fst) : removeTodo m id = m := by
  induction m with
  | nil => simp [removeTodo]
  | cons p rest ih =>
    simp only [List.map_cons, List.mem_cons, not_or] at h
    have hp : ¬ (p.1 = id) := fun hh => h.1 hh.symm
    rw [removeTodo_cons, if_neg hp, ih h.2]

lemma length_removeTodo (m : List (Nat × Todo)) (id : Nat)
    (hnd : (m.map Prod.fst).Nodup) (h : id ∈ m.map Prod.fst) :
    (removeTodo m id).length + 1 = m.length := by
  induction m with
  | nil => simp at h
  | cons p rest ih =>
    simp only [List.map_cons, List.nodup_cons] at hnd
    rw [removeTodo_cons]
    by_cases hp : p.1 = id
    · have hid : id ∉ rest.map Prod.fst := by rw [← hp]; exact hnd.1
      rw [if_pos hp, removeTodo_eq_self rest id hid]
      simp
    · have hmem : id ∈ rest.map Prod.fst := by
        simp at h
        rcases h with h | h
        · exact absurd h.symm hp
        · simpa using h
      have := ih hnd.2 hmem
      rw [if_neg hp]
      simp only [List.length_cons]
      omega

lemma WFMap_removeTodo (m : List (Nat × Todo)) (id : Nat) (h : WFMap m) :
    WFMap (removeTodo m id) := by
  constructor
  · intro p hp
    exact h.1 p (List.mem_of_mem_filter hp)
  · have hsub : List.Sublist ((removeTodo m id).map Prod.fst) (m.map Prod.fst) :=
      List.Sublist.map Prod.fst (List.filter_sublist m)
    exact h.2.sublist hsub

lemma toggleComplete_eq (s : Store) (u : String) (id : Nat) (t : Todo)
    (now : Nat) (h : lookupTodo (s u).todos id = some t) :
    s.toggleComplete u id now =
      some ({ t with completed := !t.completed, updatedAt := now },
        Store.set s u { s u with
          todos := setTodo (s u).todos id
            { t with completed := !t.completed, updatedAt := now } }) := by
  simp [Store.toggleComplete, h]

/-- claim C6 — toggling a task's completion twice returns the `completed`
flag to its original value, each single application flipping it.  Stated
for every store, user and id present in that user's task map, and for
arbitrary clock instants. -/
theorem claim_c6_toggle_involutive (s : Store) (u : String) (id : Nat)
    (t : Todo) (n1 n2 : Nat) (h : lookupTodo (s u).todos id = some t) :
    ∃ t1 s1 t2 s2,
      s.toggleComplete u id n1 = some (t1, s1) ∧
      t1.completed = !t.completed ∧
      s1.toggleComplete u id n2 = some (t2, s2) ∧
      t2.completed = t.completed := by
  have h1 := toggleComplete_eq s u id t n1 h
  have hl : lookupTodo
      ((Store.set s u { s u with
        todos := setTodo (s u).todos id
          { t with completed := !t.completed, updatedAt := n1 } }) u).todos id =
      some { t with completed := !t.completed, updatedAt := n1 } := by
    rw [Store.set_self]
    exact lookupTodo_setTodo_self _ _ _
  have h2 := toggleComplete_eq _ u id _ n2 hl
  exact ⟨_, _, _, _, h1, rfl, h2, by simp⟩

/-- witness for claim C6 at a concrete store. -/
theorem claim_c6_toggle_involutive_witness :
    ∃ t1 s1 t2 s2,
      exStore2.toggleComplete "alice" 1 5 = some (t1, s1) ∧
      t1.completed = !(false : Bool) ∧
      s1.toggleComplete "alice" 1 6 = some (t2, s2) ∧
      t2.completed = false := by
  exact claim_c6_toggle_involutive exStore2 "alice" 1
    ⟨1, [Char.ofNat 97], false, 0, 0⟩ 5 6 (by decide)

/-- claim C10 — `Update(user, id, text)` changes only the addressed task's
`Text` and `UpdatedAt`: the task keeps its `ID`, `Completed` and
`CreatedAt`, every other id of the same user is untouched, and every other
user's collection is untouched. -/
theorem claim_c10_update_frame (s : Store) (u : String) (id : Nat)
    (text : List Char) (now : Nat) (t : Todo)
    (h : lookupTodo (s u).todos id = some t) :
    ∃ t2 s2,
      s.update u id text now = some (t2, s2) ∧
      t2.text = text ∧ t2.updatedAt = now ∧
      t2.id = t.id ∧ t2.completed = t.completed ∧ t2.createdAt = t.createdAt ∧
      lookupTodo (s2 u).todos id = some t2 ∧
      (∀ id', id' ≠ id → lookupTodo (s2 u).todos id' = lookupTodo (s u).todos id') ∧
      (∀ v, v ≠ u → s2 v = s v) := by
  have h1 : s.update u id text now =
      some ({ t with text := text, updatedAt := now },
        Store.set s u { s u with
          todos := setTodo (s u).todos id
            { t with text := text, updatedAt := now } }) := by
    simp [Store.update, h]
  refine ⟨_, _, h1, rfl, rfl, rfl, rfl, rfl, ?_, ?_, ?_⟩
  · rw [Store.set_self]
    exact lookupTodo_setTodo_self _ _ _
  · intro id' hne
    rw [Store.set_self]
    exact lookupTodo_setTodo_ne _ _ _ _ hne
  · intro v hv
    exact Store.set_ne _ _ _ _ hv

lemma filterMap_congr_mem {α β : Type} (l : List α) (f g : α → Option β)
    (h : ∀ a ∈ l, f a = g a) : l.filterMap f = l.filterMap g := by
  induction l with
  | nil => rfl
  | cons a rest ih =>
    rw [List.filterMap_cons, List.filterMap_cons, h a (by simp),
      ih (fun b hb => h b (by simp [hb]))]

lemma filterMap_lookup_keys (m : List (Nat × Todo))
    (hnd : (m.map Prod.fst).Nodup) :
    (m.map Prod.fst).filterMap (fun id => lookupTodo m id) =
      m.map Prod.snd := by
  induction m with
  | nil => rfl
  | cons p rest ih =>
    simp only [List.map_cons, List.nodup_cons] at hnd ⊢
    rw [List.filterMap_cons]
    have hhead : lookupTodo (p :: rest) p.1 = some p.2 := by
      simp [lookupTodo]
    rw [hhead]
    have htail : (rest.map Prod.fst).filterMap
        (fun id => lookupTodo (p :: rest) id) =
        (rest.map Prod.fst).filterMap (fun id => lookupTodo rest id) := by
      apply filterMap_congr_mem
      intro id hid
      have hne : ¬ (p.1 = id) := fun hh => hnd.1 (hh ▸ hid)
      simp [lookupTodo, hne]
    rw [htail, ih hnd.2]

/-- the list returned by `Store.List` under any admissible iteration order
is a permutation of the map's tasks. -/
lemma listWithOrder_perm (s : Store) (u : String) (order : List Nat)
    (hnd : ((s u).todos.map Prod.fst).Nodup)
    (ho : IterOrder (s u).todos order) :
    (s.listWithOrder u order).Perm ((s u).todos.map Prod.snd) := by
  have h1 : (s.listWithOrder u order).Perm
      (((s u).todos.map Prod.fst).filterMap (fun id => lookupTodo (s u).todos id)) :=
    List.Perm.filterMap _ ho
  rw [filterMap_lookup_keys _ hnd] at h1
  exact h1

/-- counterexample to claim C7: `Store.List` itself does not sort.  For the
two-task store and the admissible map iteration order `[2, 1]`, the list
returned by `List` is not ordered by id ascending (it is the caller,
`refreshDisplay`, that sorts the returned slice). -/
theorem claim_c7_counterexample :
    IterOrder (exStore2 "alice").todos [2, 1] ∧
    ¬ List.Sorted todoLE (exStore2.listWithOrder "alice" [2, 1]) := by
  constructor
  · unfold IterOrder
    decide
  · decide

/-- claim C7 as amended — `Store.List` returns the user's tasks in an
unspecified map-iteration order, a permutation of the stored tasks; the
session controller sorts the returned list, so the snapshot it keeps is
those same tasks ordered by id ascending. -/
theorem claim_c7_amended (s : Store) (u : String) (order : List Nat)
    (hwf : WFMap (s u).todos) (ho : IterOrder (s u).todos order) :
    List.Sorted todoLE (sortByID (s.listWithOrder u order)) ∧
    (sortByID (s.listWithOrder u order)).Perm ((s u).todos.map Prod.snd) := by
  constructor
  · exact List.sorted_insertionSort todoLE _
  · exact (List.perm_insertionSort todoLE _).trans
      (listWithOrder_perm s u order hwf.2 ho)

/-- witness for the amended claim C7 at the two-task store with the
reversed iteration order. -/
theorem claim_c7_amended_witness :
    List.Sorted todoLE (sortByID (exStore2.listWithOrder "alice" [2, 1])) ∧
    (sortByID (exStore2.listWithOrder "alice" [2, 1])).Perm
      ((exStore2 "alice").todos.map Prod.snd) := by
  exact claim_c7_amended exStore2 "alice" [2, 1]
    (by unfold WFMap; decide) (by unfold IterOrder; decide)

/-- witness for claim C10 at a concrete two-task store. -/
theorem claim_c10_update_frame_witness :
    ∃ t2 s2,
      exStore2.update "alice" 1 [Char.ofNat 99] 7 = some (t2, s2) ∧
      t2.text = [Char.ofNat 99] ∧ t2.updatedAt = 7 ∧
      t2.id = 1 ∧ t2.completed = false ∧ t2.createdAt = 0 ∧
      lookupTodo (s2 "alice").todos 1 = some t2 ∧
      (∀ id', id' ≠ 1 →
        lookupTodo (s2 "alice").todos id' =
          lookupTodo (exStore2 "alice").todos id') ∧
      (∀ v, v ≠ "alice" → s2 v = exStore2 v) := by
  rcases claim_c10_update_frame exStore2 "alice" 1 [Char.ofNat 99] 7
      ⟨1, [Char.ofNat 97], false, 0, 0⟩ (by decide)
    with ⟨t2, s2, h1, h2, h3, h4, h5, h6, h7, h8, h9⟩
  exact ⟨t2, s2, h1, h2, h3, h4, h5, h6, h7, h8, h9⟩

lemma sortByID_length (l : List Todo) : (sortByID l).length = l.length :=
  (List.perm_insertionSort todoLE l).length_eq

lemma mem_sortByID {a : Todo} {l : List Todo} (h : a ∈ sortByID l) :
    a ∈ l :=
  (List.perm_insertionSort todoLE l).mem_iff.mp h

/-- claim C9 — after the escape prefix `0x1B 0x5B 0x33` the Delete action
requires the trailing byte `0x7E`: any other trailing byte is discarded
with no event, no error and no state change, and the loop resumes on the
next byte as fresh input; unrecognized sequence codes and sequences
truncated by the end of the stream are likewise discarded silently. -/
theorem claim_c9_escape_recovery (t : TerminalUI) (s : Store)
    (us : UserStore) (clock : Nat) (ok : Bool)
    (hm : t.mode ≠ UIMode.register) :
    (∀ c rest, c ≠ 126 →
      handleInput t s us (27 :: 91 :: 51 :: c :: rest) clock ok =
        handleInput t s us rest (clock + 1) ok) ∧
    (∀ y rest, y ≠ 65 → y ≠ 66 → y ≠ 67 → y ≠ 68 → y ≠ 51 →
      handleInput t s us (27 :: 91 :: y :: rest) clock ok =
        handleInput (refreshTodos t s) s us rest (clock + 1) ok) ∧
    handleInput t s us [27] clock ok = ⟨t, s, us, [], Outcome.eof⟩ ∧
    handleInput t s us [27, 91] clock ok =
      ⟨refreshTodos t s, s, us, [], Outcome.eof⟩ ∧
    handleInput t s us [27, 91, 51] clock ok =
      ⟨t, s, us, [], Outcome.eof⟩ := by
  refine ⟨?_, ?_, ?_, ?_, ?_⟩
  · intro c rest hc
    rw [handleInput]
    simp [stepMain, hm, hc]
  · intro y rest h65 h66 h67 h68 h51
    rw [handleInput]
    simp [stepMain, hm, h65, h66, h67, h68, h51]
  · rw [handleInput]
    simp [stepMain, hm, handleInput]
  · rw [handleInput]
    simp [stepMain, hm, handleInput]
  · rw [handleInput]
    simp [stepMain, hm, handleInput]

/-- witness for claim C9: a sequence with trailing byte `d` issues
nothing and the loop continues, and a lone escape at end of stream ends
the session cleanly and unchanged. -/
theorem claim_c9_escape_recovery_witness :
    handleInput (newTerminalUI "alice" false) (fun _ => emptyUserTodos)
        (fun _ => none) [27, 91, 51, 100] 0 true =
      handleInput (newTerminalUI "alice" false) (fun _ => emptyUserTodos)
        (fun _ => none) [] 1 true ∧
    handleInput (newTerminalUI "alice" false) (fun _ => emptyUserTodos)
        (fun _ => none) [27] 0 true =
      ⟨newTerminalUI "alice" false, fun _ => emptyUserTodos,
        fun _ => none, [], Outcome.eof⟩ := by
  have h := claim_c9_escape_recovery (newTerminalUI "alice" false)
    (fun _ => emptyUserTodos) (fun _ => none) 0 true (by decide)
  exact ⟨h.1 100 [] (by decide), h.2.2.1⟩

/-- claim C4 — in Editing mode, `Enter` trims the buffer and issues
exactly one `AddTask` (new-task target) or one `UpdateTask` (existing
target) when the trimmed text is non-empty, and no command when it is
empty, returning to Browsing with an empty buffer in every case; `Tab`
discards the buffer and returns to Browsing with no command. -/
theorem claim_c4_editing_enter_tab (t : TerminalUI) (s : Store)
    (us : UserStore) (clock : Nat) (ok : Bool)
    (hm : t.mode = UIMode.input) :
    (t.inputLabel = "New todo: " → trimSpace t.inputText ≠ [] →
      (handleInput t s us [13] clock ok).cmds =
        [Cmd.addTask t.username (trimSpace t.inputText)] ∧
      (handleInput t s us [13] clock ok).ui.mode = UIMode.normal ∧
      (handleInput t s us [13] clock ok).ui.inputText = []) ∧
    (t.inputLabel = "Edit todo: " → trimSpace t.inputText ≠ [] →
      (handleInput t s us [13] clock ok).cmds =
        [Cmd.updateTask t.username
          ((t.todos.getD t.selected default).id) (trimSpace t.inputText)] ∧
      (handleInput t s us [13] clock ok).ui.mode = UIMode.normal ∧
      (handleInput t s us [13] clock ok).ui.inputText = []) ∧
    (trimSpace t.inputText = [] →
      (handleInput t s us [13] clock ok).cmds = [] ∧
      (handleInput t s us [13] clock ok).ui.mode = UIMode.normal ∧
      (handleInput t s us [13] clock ok).ui.inputText = []) ∧
    ((handleInput t s us [9] clock ok).cmds = [] ∧
      (handleInput t s us [9] clock ok).ui.mode = UIMode.normal ∧
      (handleInput t s us [9] clock ok).ui.inputText = []) := by
  refine ⟨?_, ?_, ?_, ?_⟩
  · intro hl htr
    rw [handleInput]
    simp [stepMain, hm, hl, htr, handleInput, refreshTodos]
  · intro hl htr
    rw [handleInput]
    simp [stepMain, hm, hl, htr, handleInput, refreshTodos]
  · intro htr
    rw [handleInput]
    simp [stepMain, hm, htr, handleInput, refreshTodos]
  · rw [handleInput]
    simp [stepMain, hm, handleInput, refreshTodos]

/-- witness for claim C4: editing with buffer "x" on the new-task target,
`Enter` issues exactly one `AddTask "x"` and returns to Browsing; `Tab`
issues nothing. -/
theorem claim_c4_editing_enter_tab_witness :
    ((handleInput exUIEdit (fun _ => emptyUserTodos) (fun _ => none)
        [13] 0 true).cmds =
      [Cmd.addTask "alice" (trimSpace [Char.ofNat 120])] ∧
     (handleInput exUIEdit (fun _ => emptyUserTodos) (fun _ => none)
        [13] 0 true).ui.mode = UIMode.normal ∧
     (handleInput exUIEdit (fun _ => emptyUserTodos) (fun _ => none)
        [13] 0 true).ui.inputText = []) ∧
    ((handleInput exUIEdit (fun _ => emptyUserTodos) (fun _ => none)
        [9] 0 true).cmds = [] ∧
     (handleInput exUIEdit (fun _ => emptyUserTodos) (fun _ => none)
        [9] 0 true).ui.mode = UIMode.normal ∧
     (handleInput exUIEdit (fun _ => emptyUserTodos) (fun _ => none)
        [9] 0 true).ui.inputText = []) := by
  have h := claim_c4_editing_enter_tab exUIEdit (fun _ => emptyUserTodos)
    (fun _ => none) 0 true (by decide)
  exact ⟨h.1 (by decide) (by decide), h.2.2.2⟩

/-- claim C5 — registration `Enter` handling: at `SetPassword` a buffer
shorter than 6 characters is cleared and the step does not advance and no
credential is registered; a buffer of length ≥ 6 is stashed as the
pending password, the buffer is cleared and the step advances to
`ConfirmPassword`; at `ConfirmPassword` a buffer equal to the pending
password issues `RegisterCredential(identity, pendingPassword)` and on
success the mode becomes Browsing, while a mismatch clears the buffer and
reverts to `SetPassword` with no command. -/
theorem claim_c5_registration_enter (t : TerminalUI) (s : Store)
    (us : UserStore) (clock : Nat)
    (hm : t.mode = UIMode.register) :
    (∀ ok, t.registerStep = 0 → t.inputText.length < 6 →
      (handleInput t s us [13] clock ok).cmds = [] ∧
      (handleInput t s us [13] clock ok).ui.mode = UIMode.register ∧
      (handleInput t s us [13] clock ok).ui.registerStep = 0 ∧
      (handleInput t s us [13] clock ok).ui.inputText = []) ∧
    (∀ ok, t.registerStep = 0 → 6 ≤ t.inputText.length →
      (handleInput t s us [13] clock ok).cmds = [] ∧
      (handleInput t s us [13] clock ok).ui.registerStep = 1 ∧
      (handleInput t s us [13] clock ok).ui.password = t.inputText ∧
      (handleInput t s us [13] clock ok).ui.inputText = [] ∧
      (handleInput t s us [13] clock ok).ui.mode = UIMode.register) ∧
    (t.registerStep = 1 → t.inputText = t.password →
      (handleInput t s us [13] clock true).cmds =
        [Cmd.registerCred t.username t.password] ∧
      (handleInput t s us [13] clock true).ui.mode = UIMode.normal) ∧
    (∀ ok, t.registerStep = 1 → t.inputText ≠ t.password →
      (handleInput t s us [13] clock ok).cmds = [] ∧
      (handleInput t s us [13] clock ok).ui.registerStep = 0 ∧
      (handleInput t s us [13] clock ok).ui.inputText = [] ∧
      (handleInput t s us [13] clock ok).ui.mode = UIMode.register) := by
  refine ⟨?_, ?_, ?_, ?_⟩
  · intro ok h0 hlen
    rw [handleInput]
    simp [stepRegister, handleRegistration, hm, h0, hlen, handleInput,
      refreshTodos]
  · intro ok h0 hlen
    have hlt : ¬ (t.inputText.length < 6) := by omega
    rw [handleInput]
    simp [stepRegister, handleRegistration, hm, h0, hlt, handleInput,
      refreshTodos]
  · intro h1 heq
    rw [handleInput]
    simp [stepRegister, handleRegistration, hm, h1, heq, handleInput,
      refreshTodos]
  · intro ok h1 hne
    rw [handleInput]
    simp [stepRegister, handleRegistration, hm, h1, hne, handleInput,
      refreshTodos]

/-- witness for claim C5: scenario D — from a fresh registration state
with buffer "abcdef", `Enter` advances to the confirmation step with the
pending password stashed; from the confirmation state with a matching
buffer, `Enter` issues the credential registration and lands in Browsing
mode. -/
theorem claim_c5_registration_enter_witness :
    ((handleInput { newTerminalUI "bob" true with
          inputText := [Char.ofNat 97, Char.ofNat 98, Char.ofNat 99,
            Char.ofNat 100, Char.ofNat 101, Char.ofNat 102] }
        (fun _ => emptyUserTodos) (fun _ => none) [13] 0 true).ui.registerStep
        = 1 ∧
     (handleInput { newTerminalUI "bob" true with
          inputText := [Char.ofNat 97, Char.ofNat 98, Char.ofNat 99,
            Char.ofNat 100, Char.ofNat 101, Char.ofNat 102] }
        (fun _ => emptyUserTodos) (fun _ => none) [13] 0 true).ui.password =
        [Char.ofNat 97, Char.ofNat 98, Char.ofNat 99,
          Char.ofNat 100, Char.ofNat 101, Char.ofNat 102]) ∧
    ((handleInput { newTerminalUI "bob" true with
          registerStep := 1,
          inputText := [Char.ofNat 97, Char.ofNat 98, Char.ofNat 99,
            Char.ofNat 100, Char.ofNat 101, Char.ofNat 102],
          password := [Char.ofNat 97, Char.ofNat 98, Char.ofNat 99,
            Char.ofNat 100, Char.ofNat 101, Char.ofNat 102] }
        (fun _ => emptyUserTodos) (fun _ => none) [13] 0 true).cmds =
      [Cmd.registerCred "bob"
        [Char.ofNat 97, Char.ofNat 98, Char.ofNat 99,
          Char.ofNat 100, Char.ofNat 101, Char.ofNat 102]] ∧
     (handleInput { newTerminalUI "bob" true with
          registerStep := 1,
          inputText := [Char.ofNat 97, Char.ofNat 98, Char.ofNat 99,
            Char.ofNat 100, Char.ofNat 101, Char.ofNat 102],
          password := [Char.ofNat 97, Char.ofNat 98, Char.ofNat 99,
            Char.ofNat 100, Char.ofNat 101, Char.ofNat 102] }
        (fun _ => emptyUserTodos) (fun _ => none) [13] 0 true).ui.mode =
      UIMode.normal) := by
  constructor
  · have h := claim_c5_registration_enter
      { newTerminalUI "bob" true with
          inputText := [Char.ofNat 97, Char.ofNat 98, Char.ofNat 99,
            Char.ofNat 100, Char.ofNat 101, Char.ofNat 102] }
      (fun _ => emptyUserTodos) (fun _ => none) 0 (by decide)
    rcases h.2.1 true (by decide) (by decide) with ⟨_, h2, h3, _, _⟩
    exact ⟨h2, h3⟩
  · have h := claim_c5_registration_enter
      { newTerminalUI "bob" true with
          registerStep := 1,
          inputText := [Char.ofNat 97, Char.ofNat 98, Char.ofNat 99,
            Char.ofNat 100, Char.ofNat 101, Char.ofNat 102],
          password := [Char.ofNat 97, Char.ofNat 98, Char.ofNat 99,
            Char.ofNat 100, Char.ofNat 101, Char.ofNat 102] }
      (fun _ => emptyUserTodos) (fun _ => none) 0 (by decide)
    exact h.2.2.1 (by decide) (by decide)

lemma exitCodesOf_append (l1 l2 : List ChanEvent) :
    exitCodesOf (l1 ++ l2) = exitCodesOf l1 ++ exitCodesOf l2 := by
  simp [exitCodesOf]

lemma exitCodesOf_writes (w : List String) :
    exitCodesOf (w.map ChanEvent.write) = [] := by
  induction w with
  | nil => rfl
  | cons a rest ih =>
    simp only [List.map_cons, exitCodesOf, List.filterMap_cons] at ih ⊢
    exact ih

/-- counterexample to claim C8: on the internal-error path the session
sends two `exit-status` requests, not one — `handleInput`'s non-EOF error
branch sends status 1 before the deferred teardown runs, and the deferred
function then unconditionally sends status 0 after the teardown. -/
theorem claim_c8_counterexample :
    exitCodesOf (handleChannelShell [] true) = [1, 0] ∧
    (exitCodesOf (handleChannelShell [] true)).length ≠ 1 := by
  constructor
  · decide
  · decide

/-- claim C8 as amended — exit status 0 is sent exactly once per shell
session, after the teardown writes, and it is the final channel event; on
an internal (non-EOF) input error an additional exit status 1 is sent
before the teardown, so the error path sends two statuses `[1, 0]`. -/
theorem claim_c8_amended (w : List String) (e : Bool) :
    exitCodesOf (handleChannelShell w e) = (if e then [1, 0] else [0]) ∧
    (handleChannelShell w e).getLast? = some (ChanEvent.sendExit 0) ∧
    ∃ front,
      handleChannelShell w e =
        front ++ teardownEvents ++ [ChanEvent.sendExit 0] ∧
      exitCodesOf front = (if e then [1] else []) := by
  refine ⟨?_, ?_, ?_⟩
  · cases e <;>
      simp [handleChannelShell, exitCodesOf_append, exitCodesOf_writes,
        exitCodesOf, teardownEvents]
  · have hdecomp : handleChannelShell w e =
        ([ChanEvent.write "\x1b[?1049h", ChanEvent.write "\x1b[?7l"] ++
          w.map ChanEvent.write ++
          (if e then [ChanEvent.sendExit 1] else []) ++ teardownEvents) ++
        [ChanEvent.sendExit 0] := by
      simp [handleChannelShell]
    rw [hdecomp, List.getLast?_concat]
  · refine ⟨[ChanEvent.write "\x1b[?1049h", ChanEvent.write "\x1b[?7l"] ++
      w.map ChanEvent.write ++
      (if e then [ChanEvent.sendExit 1] else []), ?_, ?_⟩
    · simp [handleChannelShell]
    · cases e <;>
        simp [exitCodesOf_append, exitCodesOf_writes, exitCodesOf]

/-- one Delete-key unit in Browsing mode: the selected task's id is
deleted from the store, the selection is re-clamped against the stale
snapshot length, and the loop continues after a refresh. -/
lemma delete_step (t : TerminalUI) (s : Store) (us : UserStore)
    (more : List Nat) (clock : Nat) (ok : Bool)
    (hm : t.mode = UIMode.normal)
    (hwf : WFMap (s t.username).todos)
    (hsync : t.todos = sortByID ((s t.username).todos.map Prod.snd))
    (hne : 0 < t.todos.length)
    (hsel : t.selected < t.todos.length) :
    ∃ s2 : Store,
      handleInput t s us (27 :: 91 :: 51 :: 126 :: more) clock ok =
        (let r := handleInput
            (refreshTodos
              (if t.selected ≥ t.todos.length - 1
               then { t with selected := t.todos.length - 2 } else t) s2)
            s2 us more (clock + 1) ok
         ⟨r.ui, r.store, r.users,
           Cmd.deleteTask t.username ((t.todos.getD t.selected default).id)
             :: r.cmds, r.outcome⟩) ∧
      (s2 t.username).todos = removeTodo (s t.username).todos
        ((t.todos.getD t.selected default).id) ∧
      WFMap ((s2 t.username).todos) ∧
      ((s2 t.username).todos).length + 1 = (s t.username).todos.length := by
  have hmem : t.todos.getD t.selected default ∈ t.todos := by
    rw [List.getD_eq_getElem t.todos default hsel]
    exact List.getElem_mem hsel
  have hmem2 : t.todos.getD t.selected default ∈
      (s t.username).todos.map Prod.snd := by
    apply mem_sortByID
    rw [← hsync]
    exact hmem
  obtain ⟨p, hp, hpeq⟩ := List.mem_map.mp hmem2
  have hkey : (t.todos.getD t.selected default).id ∈
      (s t.username).todos.map Prod.fst := by
    rw [← hpeq, hwf.1 p hp]
    exact List.mem_map_of_mem Prod.fst hp
  obtain ⟨td, hlk⟩ := lookupTodo_isSome_of_mem _ _ hkey
  have hdel : s.delete t.username ((t.todos.getD t.selected default).id) =
      some (s.set t.username
        { s t.username with
            todos := removeTodo (s t.username).todos
              ((t.todos.getD t.selected default).id) }) := by
    simp only [Store.delete]
    rw [hlk]
  refine ⟨s.set t.username
    { s t.username with
        todos := removeTodo (s t.username).todos
          ((t.todos.getD t.selected default).id) }, ?_, ?_, ?_, ?_⟩
  · rw [handleInput]
    simp only [List.getD_eq_getElem?_getD] at hdel
    simp [stepMain, hm, hne, hdel]
  · rw [Store.set_self]
  · rw [Store.set_self]
    exact WFMap_removeTodo _ _ hwf
  · rw [Store.set_self]
    exact length_removeTodo _ _ hwf.2 hkey

/-- counterexample to claim C1: with three tasks and the last one
selected, Delete issues `DeleteTask 3` and the new snapshot has length 2,
but the selection index afterwards is 1, not the claimed
`max(0, newLen - 2) = 0` (the code re-clamps with the stale pre-deletion
length). -/
theorem claim_c1_counterexample :
    (handleInput exUI3 exStore3 (fun _ => none)
        [27, 91, 51, 126] 0 true).cmds = [Cmd.deleteTask "alice" 3] ∧
    (handleInput exUI3 exStore3 (fun _ => none)
        [27, 91, 51, 126] 0 true).ui.todos.length = 2 ∧
    (handleInput exUI3 exStore3 (fun _ => none)
        [27, 91, 51, 126] 0 true).ui.selected = 1 ∧
    (handleInput exUI3 exStore3 (fun _ => none)
        [27, 91, 51, 126] 0 true).ui.selected ≠
      max 0 ((handleInput exUI3 exStore3 (fun _ => none)
        [27, 91, 51, 126] 0 true).ui.todos.length - 2) := by
  refine ⟨?_, ?_, ?_, ?_⟩ <;>
    simp [handleInput, stepMain, exUI3, exStore3, newTerminalUI,
      Store.delete, Store.set, lookupTodo, removeTodo, refreshTodos,
      sortByID, emptyUserTodos, List.insertionSort, List.orderedInsert,
      todoLE]

/-- claim C1 as amended — in Browsing mode with a non-empty snapshot,
Delete issues `DeleteTask` on the selected task's id and the snapshot
shrinks by one; the selection is then re-clamped only when the selected
item was the last one (`selectedIndex ≥ oldLen - 1`), to
`max(0, newLen - 1)` (equivalently `oldLen - 2`), and is left unchanged
otherwise. -/
theorem claim_c1_amended (t : TerminalUI) (s : Store) (us : UserStore)
    (clock : Nat) (ok : Bool)
    (hm : t.mode = UIMode.normal)
    (hwf : WFMap (s t.username).todos)
    (hsync : t.todos = sortByID ((s t.username).todos.map Prod.snd))
    (hne : 0 < t.todos.length)
    (hsel : t.selected < t.todos.length) :
    (handleInput t s us [27, 91, 51, 126] clock ok).cmds =
      [Cmd.deleteTask t.username ((t.todos.getD t.selected default).id)] ∧
    (handleInput t s us [27, 91, 51, 126] clock ok).ui.todos.length =
      t.todos.length - 1 ∧
    (handleInput t s us [27, 91, 51, 126] clock ok).ui.selected =
      (if t.selected ≥ t.todos.length - 1
       then max 0
         ((handleInput t s us [27, 91, 51, 126] clock ok).ui.todos.length - 1)
       else t.selected) := by
  obtain ⟨s2, heq, hs2, hwf2, hlen⟩ :=
    delete_step t s us [] clock ok hm hwf hsync hne hsel
  have hlen0 : t.todos.length = (s t.username).todos.length := by
    rw [hsync, sortByID_length, List.length_map]
  have hs2len : (s2 t.username).todos.length + 1 = t.todos.length := by
    omega
  rw [heq, handleInput]
  by_cases hc : t.selected ≥ t.todos.length - 1
  · simp only [if_pos hc]
    simp [refreshTodos, hm, sortByID_length, hc]
    omega
  · simp only [if_neg hc]
    simp [refreshTodos, hm, sortByID_length, hc]
    omega

/-- witness for the amended claim C1: deleting the selected last task of
three issues `DeleteTask 3`, shrinks the snapshot to two tasks and moves
the selection to index 1. -/
theorem claim_c1_amended_witness :
    (handleInput exUI3 exStore3 (fun _ => none)
        [27, 91, 51, 126] 5 true).cmds =
      [Cmd.deleteTask "alice"
        ((exUI3.todos.getD exUI3.selected default).id)] ∧
    (handleInput exUI3 exStore3 (fun _ => none)
        [27, 91, 51, 126] 5 true).ui.todos.length =
      exUI3.todos.length - 1 ∧
    (handleInput exUI3 exStore3 (fun _ => none)
        [27, 91, 51, 126] 5 true).ui.selected =
      (if exUI3.selected ≥ exUI3.todos.length - 1
       then max 0
         ((handleInput exUI3 exStore3 (fun _ => none)
            [27, 91, 51, 126] 5 true).ui.todos.length - 1)
       else exUI3.selected) := by
  exact claim_c1_amended exUI3 exStore3 (fun _ => none) 5 true
    (by decide) (by unfold WFMap; decide) (by decide) (by decide) (by decide)

/-- refreshing the snapshot from the same store preserves the Browsing
invariant, for any in-range replacement of the selection. -/
lemma BrowseInv_refresh (t : TerminalUI) (s : Store) (sel2 : Nat)
    (h : BrowseInv t s) (hsel2 : sel2 ≤ t.todos.length - 1) :
    BrowseInv (refreshTodos { t with selected := sel2 } s) s := by
  obtain ⟨hm, hwf, hsync, _⟩ := h
  have hlen : (sortByID ((s t.username).todos.map Prod.snd)).length =
      t.todos.length := by
    rw [← hsync]
  refine ⟨?_, ?_, ?_, ?_⟩
  · simp [refreshTodos, hm]
  · simp [refreshTodos, hm]
    exact hwf
  · simp [refreshTodos, hm]
  · simp [refreshTodos, hm]
    omega

/-- processing one Browsing-mode key consumes exactly one loop iteration
and preserves the Browsing invariant. -/
lemma browse_step (k : BrowseKey) (t : TerminalUI) (s : Store)
    (us : UserStore) (more : List Nat) (clock : Nat) (ok : Bool)
    (h : BrowseInv t s) :
    ∃ t2 s2 c,
      handleInput t s us (encodeBrowseKey k ++ more) clock ok =
        (let r := handleInput t2 s2 us more (clock + 1) ok
         ⟨r.ui, r.store, r.users, c ++ r.cmds, r.outcome⟩) ∧
      BrowseInv t2 s2 := by
  obtain ⟨hm, hwf, hsync, hselb⟩ := h
  obtain ⟨w, ht, td, sel, mo, it, il, cp, un, ir, rs, pw⟩ := t
  replace hm : mo = UIMode.normal := hm
  subst hm
  simp only at hwf hsync hselb
  cases k with
  | up =>
    by_cases h0 : sel > 0
    · refine ⟨refreshTodos
        ⟨w, ht, td, sel - 1, UIMode.normal, it, il, cp, un, ir, rs, pw⟩ s,
        s, [], ?_, ?_⟩
      · simp only [encodeBrowseKey, List.cons_append, List.nil_append]
        rw [handleInput]
        simp [stepMain, h0]
      · exact BrowseInv_refresh
          ⟨w, ht, td, sel, UIMode.normal, it, il, cp, un, ir, rs, pw⟩ s
          (sel - 1) ⟨rfl, hwf, hsync, hselb⟩
          (by show sel - 1 ≤ td.length - 1
              omega)
    · refine ⟨refreshTodos
        ⟨w, ht, td, sel, UIMode.normal, it, il, cp, un, ir, rs, pw⟩ s,
        s, [], ?_, ?_⟩
      · simp only [encodeBrowseKey, List.cons_append, List.nil_append]
        rw [handleInput]
        simp [stepMain, h0]
      · exact BrowseInv_refresh
          ⟨w, ht, td, sel, UIMode.normal, it, il, cp, un, ir, rs, pw⟩ s
          sel ⟨rfl, hwf, hsync, hselb⟩ hselb
  | down =>
    by_cases h0 : sel < td.length - 1
    · refine ⟨refreshTodos
        ⟨w, ht, td, sel + 1, UIMode.normal, it, il, cp, un, ir, rs, pw⟩ s,
        s, [], ?_, ?_⟩
      · simp only [encodeBrowseKey, List.cons_append, List.nil_append]
        rw [handleInput]
        simp [stepMain, h0]
      · exact BrowseInv_refresh
          ⟨w, ht, td, sel, UIMode.normal, it, il, cp, un, ir, rs, pw⟩ s
          (sel + 1) ⟨rfl, hwf, hsync, hselb⟩
          (by show sel + 1 ≤ td.length - 1
              omega)
    · refine ⟨refreshTodos
        ⟨w, ht, td, sel, UIMode.normal, it, il, cp, un, ir, rs, pw⟩ s,
        s, [], ?_, ?_⟩
      · simp only [encodeBrowseKey, List.cons_append, List.nil_append]
        rw [handleInput]
        simp [stepMain, h0]
      · exact BrowseInv_refresh
          ⟨w, ht, td, sel, UIMode.normal, it, il, cp, un, ir, rs, pw⟩ s
          sel ⟨rfl, hwf, hsync, hselb⟩ hselb
  | delete =>
    by_cases hn : 0 < td.length
    · have hsel : sel < td.length := by omega
      obtain ⟨s2, heq, hs2, hwf2, hlen⟩ := delete_step
        ⟨w, ht, td, sel, UIMode.normal, it, il, cp, un, ir, rs, pw⟩
        s us more clock ok rfl hwf hsync hn hsel
      simp only at heq hs2 hwf2 hlen
      have hlen0 : td.length = (s un).todos.length := by
        rw [hsync, sortByID_length, List.length_map]
      refine ⟨refreshTodos
          (if sel ≥ td.length - 1
           then ⟨w, ht, td, td.length - 2, UIMode.normal, it, il, cp, un,
             ir, rs, pw⟩
           else ⟨w, ht, td, sel, UIMode.normal, it, il, cp, un, ir, rs,
             pw⟩) s2, s2,
        [Cmd.deleteTask un ((td.getD sel default).id)], ?_, ?_⟩
      · simpa [encodeBrowseKey] using heq
      · have hlen2 : (sortByID ((s2 un).todos.map Prod.snd)).length
            + 1 = td.length := by
          rw [sortByID_length, List.length_map]
          omega
        by_cases hc : sel ≥ td.length - 1
        · rw [if_pos hc]
          refine ⟨?_, ?_, ?_, ?_⟩
          · simp [refreshTodos]
          · simp [refreshTodos]
            exact hwf2
          · simp [refreshTodos]
          · simp [refreshTodos]
            omega
        · rw [if_neg hc]
          refine ⟨?_, ?_, ?_, ?_⟩
          · simp [refreshTodos]
          · simp [refreshTodos]
            exact hwf2
          · simp [refreshTodos]
          · simp [refreshTodos]
            omega
    · refine ⟨refreshTodos
        ⟨w, ht, td, sel, UIMode.normal, it, il, cp, un, ir, rs, pw⟩ s,
        s, [], ?_, ?_⟩
      · simp only [encodeBrowseKey, List.cons_append, List.nil_append]
        rw [handleInput]
        simp [stepMain, hn]
      · exact BrowseInv_refresh
          ⟨w, ht, td, sel, UIMode.normal, it, il, cp, un, ir, rs, pw⟩ s
          sel ⟨rfl, hwf, hsync, hselb⟩ hselb

/-- claim C2 — for every store-backed snapshot and every sequence of
ArrowUp, ArrowDown and Delete key events processed in Browsing mode, the
selection index stays within `[0, max(0, len - 1)]` for the snapshot
current after the events (every prefix of a sequence is itself a
sequence, so the bound holds after each event). -/
theorem claim_c2_selection_in_range (ks : List BrowseKey) (t : TerminalUI)
    (s : Store) (us : UserStore) (clock : Nat) (ok : Bool)
    (h : BrowseInv t s) :
    (handleInput t s us (encodeBrowse ks) clock ok).ui.selected ≤
      max 0
        ((handleInput t s us (encodeBrowse ks) clock ok).ui.todos.length
          - 1) := by
  induction ks generalizing t s clock with
  | nil =>
    have he : encodeBrowse ([] : List BrowseKey) = [] := rfl
    rw [he, handleInput]
    simp [Nat.zero_max]
    exact h.2.2.2
  | cons k ks ih =>
    have he : encodeBrowse (k :: ks) = encodeBrowseKey k ++ encodeBrowse ks := by
      simp [encodeBrowse]
    rw [he]
    obtain ⟨t2, s2, c, heq, hinv⟩ :=
      browse_step k t s us (encodeBrowse ks) clock ok ⟨h.1, h.2.1, h.2.2.1, h.2.2.2⟩
    rw [heq]
    simpa using ih t2 s2 (clock + 1) hinv

/-- witness for claim C2: from the three-task state, the sequence
ArrowUp, Delete, ArrowDown keeps the selection within range. -/
theorem claim_c2_selection_in_range_witness :
    (handleInput exUI3 exStore3 (fun _ => none)
        (encodeBrowse [BrowseKey.up, BrowseKey.delete, BrowseKey.down])
        0 true).ui.selected ≤
      max 0
        ((handleInput exUI3 exStore3 (fun _ => none)
          (encodeBrowse [BrowseKey.up, BrowseKey.delete, BrowseKey.down])
          0 true).ui.todos.length - 1) := by
  exact claim_c2_selection_in_range _ exUI3 exStore3 (fun _ => none) 0 true
    (by unfold BrowseInv WFMap; decide)

/-- refreshing the snapshot does not touch the edit buffer or cursor. -/
lemma EditInv_refresh (t : TerminalUI) (s : Store) (h : EditInv t) :
    EditInv (refreshTodos t s) := by
  obtain ⟨hm, hc⟩ := h
  constructor
  · simp [refreshTodos, hm]
  · simp [refreshTodos, hm]
    exact hc

/-- processing one Editing-mode key consumes exactly one loop iteration,
issues no store command, leaves the store untouched, and preserves the
cursor invariant. -/
lemma edit_step (k : EditKey) (t : TerminalUI) (s : Store) (us : UserStore)
    (more : List Nat) (clock : Nat) (ok : Bool)
    (hv : ValidEditKey k) (h : EditInv t) :
    ∃ t2,
      handleInput t s us (encodeEditKey k ++ more) clock ok =
        handleInput t2 s us more (clock + 1) ok ∧
      EditInv t2 := by
  obtain ⟨hm, hcp⟩ := h
  obtain ⟨w, ht, td, sel, mo, it, il, cp, un, ir, rs, pw⟩ := t
  replace hm : mo = UIMode.input := hm
  subst hm
  simp only at hcp
  cases k with
  | printable b =>
    obtain ⟨hb1, hb2⟩ := hv
    by_cases hb : b = 32
    · subst hb
      refine ⟨refreshTodos
        ⟨w, ht, td, sel, UIMode.input,
          it.take cp ++ [Char.ofNat 32] ++ it.drop cp, il, cp + 1,
          un, ir, rs, pw⟩ s, ?_, ?_⟩
      · simp only [encodeEditKey, List.cons_append, List.nil_append]
        rw [handleInput]
        simp [stepMain]
      · refine EditInv_refresh _ s ⟨rfl, ?_⟩
        simp [List.length_take, List.length_drop]
        omega
    · have h3 : b ≠ 3 := by omega
      have h9 : b ≠ 9 := by omega
      have h13 : b ≠ 13 := by omega
      have h127 : b ≠ 127 := by omega
      have h27 : b ≠ 27 := by omega
      refine ⟨refreshTodos
        ⟨w, ht, td, sel, UIMode.input,
          it.take cp ++ [Char.ofNat b] ++ it.drop cp, il, cp + 1,
          un, ir, rs, pw⟩ s, ?_, ?_⟩
      · simp only [encodeEditKey, List.cons_append, List.nil_append]
        rw [handleInput]
        simp [stepMain, h3, h9, h13, h127, h27, hb, hb1, hb2]
      · refine EditInv_refresh _ s ⟨rfl, ?_⟩
        simp [List.length_take, List.length_drop]
        omega
  | backspace =>
    by_cases hcond : it.length > 0 ∧ cp > 0
    · refine ⟨refreshTodos
        ⟨w, ht, td, sel, UIMode.input,
          it.take (cp - 1) ++ it.drop cp, il, cp - 1,
          un, ir, rs, pw⟩ s, ?_, ?_⟩
      · simp only [encodeEditKey, List.cons_append, List.nil_append]
        rw [handleInput]
        simp [stepMain, hcond.1, hcond.2]
      · refine EditInv_refresh _ s ⟨rfl, ?_⟩
        simp [List.length_take, List.length_drop]
        omega
    · refine ⟨refreshTodos
        ⟨w, ht, td, sel, UIMode.input, it, il, cp, un, ir, rs, pw⟩ s,
        ?_, ?_⟩
      · simp only [encodeEditKey, List.cons_append, List.nil_append]
        rw [handleInput]
        rw [not_and_or] at hcond
        rcases hcond with hc1 | hc2
        · simp [stepMain, hc1]
        · simp [stepMain, hc2]
      · exact EditInv_refresh _ s ⟨rfl, hcp⟩
  | delete =>
    by_cases hcond : cp < it.length
    · refine ⟨refreshTodos
        ⟨w, ht, td, sel, UIMode.input,
          it.take cp ++ it.drop (cp + 1), il, cp,
          un, ir, rs, pw⟩ s, ?_, ?_⟩
      · simp only [encodeEditKey, List.cons_append, List.nil_append]
        rw [handleInput]
        simp [stepMain, hcond]
      · refine EditInv_refresh _ s ⟨rfl, ?_⟩
        simp [List.length_take, List.length_drop]
        omega
    · refine ⟨refreshTodos
        ⟨w, ht, td, sel, UIMode.input, it, il, cp, un, ir, rs, pw⟩ s,
        ?_, ?_⟩
      · simp only [encodeEditKey, List.cons_append, List.nil_append]
        rw [handleInput]
        simp [stepMain, hcond]
      · exact EditInv_refresh _ s ⟨rfl, hcp⟩
  | left =>
    by_cases hcond : cp > 0
    · refine ⟨refreshTodos
        ⟨w, ht, td, sel, UIMode.input, it, il, cp - 1, un, ir, rs, pw⟩ s,
        ?_, ?_⟩
      · simp only [encodeEditKey, List.cons_append, List.nil_append]
        rw [handleInput]
        simp [stepMain, hcond]
      · exact EditInv_refresh _ s
          ⟨rfl, by show cp - 1 ≤ it.length; omega⟩
    · refine ⟨refreshTodos
        ⟨w, ht, td, sel, UIMode.input, it, il, cp, un, ir, rs, pw⟩ s,
        ?_, ?_⟩
      · simp only [encodeEditKey, List.cons_append, List.nil_append]
        rw [handleInput]
        simp [stepMain, hcond]
      · exact EditInv_refresh _ s ⟨rfl, hcp⟩
  | right =>
    by_cases hcond : cp < it.length
    · refine ⟨refreshTodos
        ⟨w, ht, td, sel, UIMode.input, it, il, cp + 1, un, ir, rs, pw⟩ s,
        ?_, ?_⟩
      · simp only [encodeEditKey, List.cons_append, List.nil_append]
        rw [handleInput]
        simp [stepMain, hcond]
      · exact EditInv_refresh _ s
          ⟨rfl, by show cp + 1 ≤ it.length; omega⟩
    · refine ⟨refreshTodos
        ⟨w, ht, td, sel, UIMode.input, it, il, cp, un, ir, rs, pw⟩ s,
        ?_, ?_⟩
      · simp only [encodeEditKey, List.cons_append, List.nil_append]
        rw [handleInput]
        simp [stepMain, hcond]
      · exact EditInv_refresh _ s ⟨rfl, hcp⟩

/-- claim C3 — for every sequence of Printable, Backspace, Delete,
ArrowLeft and ArrowRight key events processed in Editing mode, the cursor
offset stays within `[0, len(editBuffer)]` for the buffer current after
the events (every prefix of a sequence is itself a sequence, so the
bound holds after each event). -/
theorem claim_c3_cursor_in_range (ks : List EditKey) (t : TerminalUI)
    (s : Store) (us : UserStore) (clock : Nat) (ok : Bool)
    (hv : ∀ k ∈ ks, ValidEditKey k) (h : EditInv t) :
    (handleInput t s us (encodeEdit ks) clock ok).ui.cursorPos ≤
      (handleInput t s us (encodeEdit ks) clock ok).ui.inputText.length := by
  induction ks generalizing t s clock with
  | nil =>
    have he : encodeEdit ([] : List EditKey) = [] := rfl
    rw [he, handleInput]
    exact h.2
  | cons k ks ih =>
    have he : encodeEdit (k :: ks) = encodeEditKey k ++ encodeEdit ks := by
      simp [encodeEdit]
    rw [he]
    obtain ⟨t2, heq, hinv⟩ := edit_step k t s us (encodeEdit ks) clock ok
      (hv k (by simp)) h
    rw [heq]
    exact ih t2 s (clock + 1) (fun k2 hk2 => hv k2 (by simp [hk2])) hinv

/-- witness for claim C3: from the one-character edit buffer, the
sequence Printable 'y', ArrowLeft, Delete, Backspace keeps the cursor in
range. -/
theorem claim_c3_cursor_in_range_witness :
    (handleInput exUIEdit (fun _ => emptyUserTodos) (fun _ => none)
        (encodeEdit [EditKey.printable 121, EditKey.left, EditKey.delete,
          EditKey.backspace]) 0 true).ui.cursorPos ≤
      (handleInput exUIEdit (fun _ => emptyUserTodos) (fun _ => none)
        (encodeEdit [EditKey.printable 121, EditKey.left, EditKey.delete,
          EditKey.backspace]) 0 true).ui.inputText.length := by
  apply claim_c3_cursor_in_range
  · intro k hk
    simp only [List.mem_cons, List.not_mem_nil, or_false] at hk
    rcases hk with h1 | h1 | h1 | h1 <;> subst h1
    · exact ⟨by omega, by omega⟩
    · exact trivial
    · exact trivial
    · exact trivial
  · exact ⟨rfl, by decide⟩

end Todoissh
